import Mathlib

/-!
Verification development for the tensormidi repository: a Python module
exposing a native Standard MIDI File decoder.  The Python wrapper
(src/tensormidi/__init__.py) declares the numpy record layouts, the event
type constants, and the `load` entry point that forwards to the native
extension `load_midi`.  The native extension itself is not part of the
visible sources, so its behaviour is modelled from the specification.
-/

namespace tensormidi

/-- Event type constant re-exported by the module (source line 4). -/
def NOTE_OFF : Nat := 0x80

/-- Event type constant re-exported by the module (source line 5). -/
def NOTE_ON : Nat := 0x90

/-- Event type constant re-exported by the module (source line 6). -/
def POLY_AFTERTOUCH : Nat := 0xA0

/-- Event type constant re-exported by the module (source line 7). -/
def CONTROL : Nat := 0xB0

/-- Event type constant re-exported by the module (source line 8). -/
def CHAN_AFTERTOUCH : Nat := 0xD0

/-- Event type constant re-exported by the module (source line 9). -/
def PITCH_BEND : Nat := 0xE0

/-- The complete set of module-level event type constants, as (name, value)
pairs, in source order (source lines 4 to 9).  The module defines exactly
these six and no others. -/
def moduleEventConstants : List (String × Nat) :=
  [("NOTE_OFF", NOTE_OFF),
   ("NOTE_ON", NOTE_ON),
   ("POLY_AFTERTOUCH", POLY_AFTERTOUCH),
   ("CONTROL", CONTROL),
   ("CHAN_AFTERTOUCH", CHAN_AFTERTOUCH),
   ("PITCH_BEND", PITCH_BEND)]

/-- Numeric field kinds appearing in the numpy dtypes of the module:
`u1` is an unsigned 8-bit field and `u4` an unsigned 32-bit field. -/
inductive NumType
  | u1
  | u4
deriving DecidableEq, Repr

/-- The numpy record dtype for output track buffers, as the ordered list of
(field name, field kind) pairs (source lines 11 to 20).  The declaration
order of the fields is the byte order of the columns in the buffer. -/
def TRACK_DTYPE : List (String × NumType) :=
  [("dt", NumType.u4),
   ("duration", NumType.u4),
   ("track", NumType.u1),
   ("program", NumType.u1),
   ("type", NumType.u1),
   ("channel", NumType.u1),
   ("key", NumType.u1),
   ("value", NumType.u1)]

/-- The numpy record dtype for the tempo table buffer (source lines 22 to 25). -/
def TEMPO_DTYPE : List (String × NumType) :=
  [("tick", NumType.u4),
   ("usec_per_beat", NumType.u4)]

/-- The keyword options of the Python `load` entry point, all booleans
(source lines 28 to 35). -/
structure LoadOptions where
  merge_tracks : Bool
  microseconds : Bool
  notes_only : Bool
  durations : Bool
  remove_note_off : Bool
deriving DecidableEq, Repr

/-- The default values of the keyword options of `load`, in the order they
appear in the signature (source lines 30 to 34). -/
def defaultLoadOptions : LoadOptions :=
  ⟨true, true, true, false, false⟩

/-- The keyword option names of `load` paired with their default values, in
signature order (source lines 30 to 34).  Every option is a plain boolean. -/
def loadOptionNamesAndDefaults : List (String × Bool) :=
  [("merge_tracks", true),
   ("microseconds", true),
   ("notes_only", true),
   ("durations", false),
   ("remove_note_off", false)]

/-- The option names as the examined claim states them (a spec-side
definition, written only to be compared with `loadOptionNamesAndDefaults`,
which is the one taken from the source). -/
def specClaimedOptionNames : List String :=
  ["merge_tracks", "time_unit", "notes_only", "compute_durations",
   "remove_note_off", "default_program"]

/-- The column order as the examined claim states it (a spec-side
definition, written only to be compared with `TRACK_DTYPE`, which is the
one taken from the source). -/
def specClaimedColumnOrder : List String :=
  ["dt", "duration", "program", "track", "type", "channel", "key", "value"]

/-- The dtype used on source line 45 to reinterpret every buffer returned by
the native extension.  The view call is `x.view(TRACK_DTYPE)` for every
option combination: the dtype chosen does not depend on the options. -/
def load_viewDtype (_o : LoadOptions) : List (String × NumType) :=
  TRACK_DTYPE

/-! ## The native decoder, modelled from the spec

The native extension `tensormidi_bind.load_midi` is not among the visible
sources.  The definitions below are modelled from the specification:
byte reader (spec 4.1), chunk and track decoder (spec 4.2), tempo map
builder (spec 4.3), time converter (spec 4.4), duration resolver
(spec 4.5), track merger (spec 4.6), filters (spec 4.7) and record
emitter (spec 4.8). -/

/-- Modelled from the spec: the fatal error taxonomy of the decoder
(spec section 7). -/
inductive DecodeError
  | TruncatedInput
  | MalformedEvent
  | UnsupportedDivision
  | InvalidHeader
deriving DecidableEq, Repr

/-- Modelled from the spec: byte reader operation reading a fixed-width
big-endian unsigned integer of `n` bytes (spec 4.1).  Returns the value and
the remaining bytes, or `none` when the buffer is too short. -/
def readBE : Nat → List Nat → Option (Nat × List Nat)
  | 0, bs => some (0, bs)
  | _ + 1, [] => none
  | n + 1, b :: bs =>
    match readBE n bs with
    | none => none
    | some (v, rest) => some ((b % 256) * 256 ^ n + v, rest)

/-- Modelled from the spec: byte reader operation reading a variable-length
quantity, 7 bits per byte, continuation bit, MSB first, at most 4 bytes
(spec 4.1).  The first argument is the remaining byte budget. -/
def readVLQAux : Nat → Nat → List Nat → Option (Nat × List Nat)
  | 0, _, _ => none
  | _ + 1, _, [] => none
  | fuel + 1, acc, b :: bs =>
    if b % 256 < 128 then some (acc * 128 + b % 256, bs)
    else readVLQAux fuel (acc * 128 + b % 128) bs

/-- Modelled from the spec: read a variable-length quantity of at most 4
bytes (spec 4.1). -/
def readVLQ (bs : List Nat) : Option (Nat × List Nat) :=
  readVLQAux 4 0 bs

/-- Modelled from the spec: take exactly `n` bytes from the stream, failing
when fewer remain (spec 4.1, peek and skip with bound reporting). -/
def takeExact (n : Nat) (bs : List Nat) : Option (List Nat × List Nat) :=
  if n ≤ bs.length then some (bs.take n, bs.drop n) else none

/-- Modelled from the spec: the validated content of the `MThd` header chunk
(spec 4.2): format, track count and the time division word. -/
structure Header where
  format : Nat
  ntracks : Nat
  division : Nat
deriving DecidableEq, Repr

/-- Modelled from the spec: header chunk validation (spec 4.2): magic
`MThd`, length 6, format 0, 1 or 2, track count, and the division word; a
division with the high bit set declares SMPTE timing, which is unsupported
and fails the whole decode with `UnsupportedDivision`. -/
def parseHeader (bs : List Nat) : Except DecodeError (Header × List Nat) :=
  match takeExact 4 bs with
  | none => .error .TruncatedInput
  | some (magic, r1) =>
    if magic.map (· % 256) ≠ [0x4D, 0x54, 0x68, 0x64] then .error .InvalidHeader
    else
      match readBE 4 r1 with
      | none => .error .TruncatedInput
      | some (len, r2) =>
        if len ≠ 6 then .error .InvalidHeader
        else
          match readBE 2 r2 with
          | none => .error .TruncatedInput
          | some (format, r3) =>
            if 2 < format then .error .InvalidHeader
            else
              match readBE 2 r3 with
              | none => .error .TruncatedInput
              | some (ntracks, r4) =>
                match readBE 2 r4 with
                | none => .error .TruncatedInput
                | some (division, r5) =>
                  if 0x8000 ≤ division then .error .UnsupportedDivision
                  else .ok (⟨format, ntracks, division⟩, r5)

/-- Modelled from the spec: walk the declared number of `MTrk` chunks, each
with a 4-byte big-endian length, trusting the declared chunk boundary
(spec 4.2).  Returns the list of track chunk bodies. -/
def parseChunks : Nat → List Nat → Except DecodeError (List (List Nat))
  | 0, _ => .ok []
  | n + 1, bs =>
    match takeExact 4 bs with
    | none => .error .TruncatedInput
    | some (magic, r1) =>
      if magic.map (· % 256) ≠ [0x4D, 0x54, 0x72, 0x6B] then .error .InvalidHeader
      else
        match readBE 4 r1 with
        | none => .error .TruncatedInput
        | some (len, r2) =>
          match takeExact len r2 with
          | none => .error .TruncatedInput
          | some (body, r3) =>
            match parseChunks n r3 with
            | .error e => .error e
            | .ok bodies => .ok (body :: bodies)

/-- Modelled from the spec: one decoded MIDI event prior to merge and time
conversion (spec section 3, RawEvent).  `tick` is the absolute tick
position, `type` the standard MIDI status nibble, and `program` the
currently active program number on the channel at event time. -/
structure RawEvent where
  tick : Nat
  track : Nat
  type : Nat
  channel : Nat
  key : Nat
  value : Nat
  program : Nat
deriving DecidableEq, Repr

/-- Modelled from the spec: one tempo table entry, a pair of a tick position
and the microseconds-per-beat value active from that tick on (spec
section 3, TempoEntry). -/
structure TempoEntry where
  tick : Nat
  usec_per_beat : Nat
deriving DecidableEq, Repr

/-- Modelled from the spec: the decoder context after consuming one event of
a track chunk: the record to surface (if any), the tempo entry extracted
(if any), and the updated tick accumulator, running status byte,
per-channel program registers and remaining bytes (spec 4.2 and the design
note on the explicit decoder context struct). -/
structure StepOut where
  ev : Option RawEvent
  tempo : Option TempoEntry
  tick : Nat
  running : Option Nat
  programs : Nat → Nat
  rest : List Nat

/-- Modelled from the spec: consume one delta-time and one event from a
track chunk body (spec 4.2).  The running-status rule reuses the previous
status byte when the next byte has a clear high bit; meta events are
length-skipped except Set-Tempo, which is extracted; sysex events are
length-skipped but surfaced as records; channel-voice events consume one or
two data bytes according to their status nibble, and Program-Change updates
the per-channel program register; an unrecognized status byte fails with
`MalformedEvent`. -/
def decodeOneEvent (trk tick0 : Nat) (running : Option Nat)
    (programs : Nat → Nat) (bs : List Nat) : Except DecodeError StepOut :=
  match readVLQ bs with
  | none => .error .TruncatedInput
  | some (delta, bs1) =>
    let tick := tick0 + delta
    match bs1 with
    | [] => .error .TruncatedInput
    | b0 :: bs2 =>
      let b := b0 % 256
      let statusAndRest : Except DecodeError (Nat × List Nat) :=
        if 128 ≤ b then .ok (b, bs2)
        else
          match running with
          | none => .error .MalformedEvent
          | some s => .ok (s, b0 :: bs2)
      match statusAndRest with
      | .error e => .error e
      | .ok (status, bs3) =>
        if status = 0xFF then
          match bs3 with
          | [] => .error .TruncatedInput
          | mt :: bs4 =>
            match readVLQ bs4 with
            | none => .error .TruncatedInput
            | some (len, bs5) =>
              match takeExact len bs5 with
              | none => .error .TruncatedInput
              | some (payload, bs6) =>
                let tempoEntry :=
                  if mt % 256 = 0x51 ∧ len = 3 then
                    some (TempoEntry.mk tick
                      (payload.foldl (fun a c => a * 256 + c % 256) 0))
                  else none
                .ok ⟨none, tempoEntry, tick, running, programs, bs6⟩
        else if status = 0xF0 ∨ status = 0xF7 then
          match readVLQ bs3 with
          | none => .error .TruncatedInput
          | some (len, bs4) =>
            match takeExact len bs4 with
            | none => .error .TruncatedInput
            | some (_, bs5) =>
              .ok ⟨some ⟨tick, trk, status, 0, 0, 0, 0⟩, none,
                tick, running, programs, bs5⟩
        else if 128 ≤ status ∧ status < 240 then
          let hi := status / 16 * 16
          let ch := status % 16
          if hi = 0xC0 ∨ hi = 0xD0 then
            match bs3 with
            | [] => .error .TruncatedInput
            | d10 :: bs4 =>
              let d1 := d10 % 256
              let programs1 : Nat → Nat :=
                fun c => if hi = 0xC0 ∧ c = ch then d1 else programs c
              .ok ⟨some ⟨tick, trk, hi, ch, d1, 0, programs1 ch⟩, none,
                tick, some status, programs1, bs4⟩
          else
            match bs3 with
            | [] => .error .TruncatedInput
            | d10 :: bs4 =>
              match bs4 with
              | [] => .error .TruncatedInput
              | d20 :: bs5 =>
                .ok ⟨some ⟨tick, trk, hi, ch, d10 % 256, d20 % 256, programs ch⟩,
                  none, tick, some status, programs, bs5⟩
        else .error .MalformedEvent

/-- Modelled from the spec: decode the event stream of one track chunk by
iterating `decodeOneEvent` until the chunk body is exhausted (spec 4.2).
The first numeric argument after the track index is the recursion fuel. -/
def decodeEventsAux (trk : Nat) :
    Nat → Nat → Option Nat → (Nat → Nat) → List Nat →
    Except DecodeError (List RawEvent × List TempoEntry)
  | 0, _, _, _, _ => .error .TruncatedInput
  | _ + 1, _, _, _, [] => .ok ([], [])
  | fuel + 1, tick, running, programs, bs =>
    match decodeOneEvent trk tick running programs bs with
    | .error e => .error e
    | .ok s =>
      match decodeEventsAux trk fuel s.tick s.running s.programs s.rest with
      | .error e => .error e
      | .ok (evs, tms) => .ok (s.ev.toList ++ evs, s.tempo.toList ++ tms)

/-- Modelled from the spec: decode one whole track chunk body starting from
tick 0, no running status, and all program registers at the default program
value 0 (spec 4.2 and section 3). -/
def decodeTrack (trk : Nat) (body : List Nat) :
    Except DecodeError (List RawEvent × List TempoEntry) :=
  decodeEventsAux trk (body.length + 1) 0 none (fun _ => 0) body

/-- Modelled from the spec: decode every track chunk body, numbering tracks
from the given index, and collect the tempo events of all tracks
(spec 2 and 4.3). -/
def decodeAllTracks : Nat → List (List Nat) →
    Except DecodeError (List (List RawEvent) × List TempoEntry)
  | _, [] => .ok ([], [])
  | i, body :: rest =>
    match decodeTrack i body with
    | .error e => .error e
    | .ok (evs, tms) =>
      match decodeAllTracks (i + 1) rest with
      | .error e => .error e
      | .ok (evss, tms2) => .ok (evs :: evss, tms ++ tms2)

/-- Modelled from the spec: stable insertion of a tempo entry, placing it
after every entry with an equal or smaller tick (spec 4.3, sorted table). -/
def insertTempo (e : TempoEntry) : List TempoEntry → List TempoEntry
  | [] => [e]
  | x :: xs => if e.tick < x.tick then e :: x :: xs else x :: insertTempo e xs

/-- Modelled from the spec: sort the collected tempo events ascending by
tick, keeping the collection order among entries with equal tick
(spec 4.3). -/
def sortTempos (l : List TempoEntry) : List TempoEntry :=
  l.foldl (fun acc e => insertTempo e acc) []

/-- Modelled from the spec: deduplicate consecutive entries with identical
tick, last write wins (spec 4.3). -/
def dedupTempos : List TempoEntry → List TempoEntry
  | [] => []
  | [x] => [x]
  | x :: y :: xs =>
    if x.tick = y.tick then dedupTempos (y :: xs)
    else x :: dedupTempos (y :: xs)

/-- Modelled from the spec: build the tempo table from the collected tempo
events: sort, deduplicate, and prepend the implicit entry at tick 0 with
the default 500000 microseconds per beat when the file defines no tempo at
tick 0 (spec 4.3 and section 3, TempoEntry). -/
def buildTempoMap (l : List TempoEntry) : List TempoEntry :=
  match dedupTempos (sortTempos l) with
  | [] => [⟨0, 500000⟩]
  | x :: xs => if x.tick = 0 then x :: xs else ⟨0, 500000⟩ :: x :: xs

/-- Modelled from the spec: walk the tempo table in order, accumulating the
elapsed microseconds of each segment strictly before the target tick, plus
the remainder in the active segment (spec 4.3).  The running state is the
tick and tempo of the last entry at or before the target and the
microseconds accumulated so far. -/
def ticksToUsAux (tpb : Nat) : Nat → Nat → Nat → Nat → List TempoEntry → Nat
  | lastTick, lastUpb, acc, tick, [] =>
    acc + (tick - lastTick) * lastUpb / tpb
  | lastTick, lastUpb, acc, tick, e :: es =>
    if e.tick ≤ tick then
      ticksToUsAux tpb e.tick e.usec_per_beat
        (acc + (e.tick - lastTick) * lastUpb / tpb) tick es
    else
      acc + (tick - lastTick) * lastUpb / tpb

/-- Modelled from the spec: convert an absolute tick position to
microseconds using the tempo table and the ticks-per-beat division
(spec 4.3, ticks_to_microseconds). -/
def ticks_to_microseconds (tpb : Nat) (tempos : List TempoEntry) (tick : Nat) : Nat :=
  ticksToUsAux tpb 0 500000 0 tick tempos

/-- Modelled from the spec: the time converter replaces the tick of every
event of a track with its converted microsecond value (spec 4.4). -/
def convertTimes (tpb : Nat) (tempos : List TempoEntry) (evs : List RawEvent) :
    List RawEvent :=
  evs.map (fun e => { e with tick := ticks_to_microseconds tpb tempos e.tick })

/-- Modelled from the spec: a Note-On with nonzero velocity opens a note
(spec 4.5). -/
def isNoteOn (e : RawEvent) : Bool :=
  e.type == 0x90 && e.value != 0

/-- Modelled from the spec: a Note-Off, or a Note-On with zero velocity,
closes a note (spec 4.5). -/
def isNoteClose (e : RawEvent) : Bool :=
  e.type == 0x80 || (e.type == 0x90 && e.value == 0)

/-- Modelled from the spec: look up the FIFO queue of open notes of one
(track, channel, key) triple (spec 4.5). -/
def queueGet (qs : List ((Nat × Nat × Nat) × List (Nat × Nat)))
    (k : Nat × Nat × Nat) : List (Nat × Nat) :=
  match qs.find? (fun p => p.1 == k) with
  | some p => p.2
  | none => []

/-- Modelled from the spec: replace the FIFO queue of one
(track, channel, key) triple (spec 4.5). -/
def queueSet (qs : List ((Nat × Nat × Nat) × List (Nat × Nat)))
    (k : Nat × Nat × Nat) (v : List (Nat × Nat)) :
    List ((Nat × Nat × Nat) × List (Nat × Nat)) :=
  match qs with
  | [] => [(k, v)]
  | p :: rest => if p.1 == k then (k, v) :: rest else p :: queueSet rest k v

/-- Modelled from the spec: one pass over the indexed events maintaining the
per-triple FIFO queues of open Note-On events.  Returns the association
list from Note-On index to computed duration, and the list of indices of
orphan closing events, which are discarded (spec 4.5). -/
def collectDur (qs : List ((Nat × Nat × Nat) × List (Nat × Nat))) :
    List (Nat × RawEvent) → List (Nat × Nat) × List Nat
  | [] => ([], [])
  | (i, e) :: rest =>
    let k : Nat × Nat × Nat := (e.track, e.channel, e.key)
    if isNoteOn e then
      collectDur (queueSet qs k (queueGet qs k ++ [(i, e.tick)])) rest
    else if isNoteClose e then
      match queueGet qs k with
      | [] =>
        let r := collectDur qs rest
        (r.1, i :: r.2)
      | (j, onT) :: q =>
        let r := collectDur (queueSet qs k q) rest
        ((j, e.tick - onT) :: r.1, r.2)
    else collectDur qs rest

/-- Modelled from the spec: duration of the Note-On at a given index, 0 when
the note is never closed (spec 4.5, unterminated notes keep duration 0). -/
def lookupDur (durs : List (Nat × Nat)) (i : Nat) : Nat :=
  match durs.find? (fun p => p.1 == i) with
  | some p => p.2
  | none => 0

/-- Modelled from the spec: the duration resolver pairs each closing event
with the oldest open Note-On of the same (track, channel, key) triple and
attaches the time difference to the retained Note-On; orphan closing events
are discarded; matched closing events are elided when `remove_off` is set
(spec 4.5).  Events are returned with their duration field value. -/
def resolveDurations (remove_off : Bool) (evs : List RawEvent) :
    List (RawEvent × Nat) :=
  let ies := evs.enum
  let r := collectDur [] ies
  ies.filterMap (fun p =>
    if isNoteClose p.2 then
      if r.2.contains p.1 then none
      else if remove_off then none
      else some (p.2, 0)
    else if isNoteOn p.2 then some (p.2, lookupDur r.1 p.1)
    else some (p.2, 0))

/-- Modelled from the spec: when durations are not computed every event
keeps duration 0, and the `remove_note_off` toggle still elides closing
events (spec 4.5 and 4.7). -/
def stripCloses (remove_off : Bool) (evs : List RawEvent) :
    List (RawEvent × Nat) :=
  evs.filterMap (fun e =>
    if remove_off && isNoteClose e then none else some (e, 0))

/-- Modelled from the spec: the notes-only filter keeps only Note-On and
Note-Off records (spec 4.7). -/
def notesOnlyFilter (enabled : Bool) (evs : List (RawEvent × Nat)) :
    List (RawEvent × Nat) :=
  evs.filter (fun p => !enabled || p.1.type == 0x80 || p.1.type == 0x90)

/-- Modelled from the spec: stable insertion by absolute time, placing the
new event after every event with an equal or smaller time (spec 4.6,
tie-break by original order). -/
def insertByTick (x : RawEvent × Nat) :
    List (RawEvent × Nat) → List (RawEvent × Nat)
  | [] => [x]
  | y :: ys =>
    if y.1.tick ≤ x.1.tick then y :: insertByTick x ys else x :: y :: ys

/-- Modelled from the spec: the track merger interleaves the per-track
sequences into one global time-ordered sequence, tie-broken by track index
ascending and then by in-track order (spec 4.6).  Implemented as a stable
insertion sort of the concatenation in track order. -/
def mergeStreams (tracks : List (List (RawEvent × Nat))) :
    List (RawEvent × Nat) :=
  tracks.flatten.foldl (fun acc x => insertByTick x acc) []

/-- Modelled from the spec: the emitted output row (spec section 3,
OutputRecord), with the fields in the column order of `TRACK_DTYPE`. -/
structure OutputRecord where
  dt : Nat
  duration : Nat
  track : Nat
  program : Nat
  type : Nat
  channel : Nat
  key : Nat
  value : Nat
deriving DecidableEq, Repr

/-- Modelled from the spec: the record emitter computes `dt` as the delta
since the previous event of the same output stream and packs each event
into an output row (spec 4.8 and section 3). -/
def computeDts : Nat → List (RawEvent × Nat) → List OutputRecord
  | _, [] => []
  | prev, (e, d) :: rest =>
    ⟨e.tick - prev, d, e.track, e.program, e.type, e.channel, e.key, e.value⟩ ::
      computeDts e.tick rest

/-- Modelled from the spec: the native extension entry point `load_midi`.
It validates the header, decodes every track chunk, builds the tempo table,
converts ticks to microseconds when requested, resolves durations when
requested, applies the filters, merges the tracks when requested, and emits
one output buffer per output track together with the tempo table and the
ticks-per-beat division (spec sections 2, 4 and 6). -/
def load_midi (bytes : List Nat)
    (merge_tracks microseconds notes_only durations remove_note_off : Bool) :
    Except DecodeError (List (List OutputRecord) × List TempoEntry × Nat) :=
  match parseHeader bytes with
  | .error e => .error e
  | .ok (hdr, rest) =>
    match parseChunks hdr.ntracks rest with
    | .error e => .error e
    | .ok bodies =>
      match decodeAllTracks 0 bodies with
      | .error e => .error e
      | .ok (trackEvs, tempoEvs) =>
        let tempos := buildTempoMap tempoEvs
        let tpb := hdr.division
        let converted :=
          if microseconds then trackEvs.map (convertTimes tpb tempos)
          else trackEvs
        let withDur := converted.map (fun evs =>
          if durations then resolveDurations remove_note_off evs
          else stripCloses remove_note_off evs)
        let filtered := withDur.map (notesOnlyFilter notes_only)
        let outTracks :=
          if merge_tracks then [computeDts 0 (mergeStreams filtered)]
          else filtered.map (computeDts 0)
        .ok (outTracks, tempos, tpb)

/-- The shape of the tracks part of the Python `load` return value: a single
buffer when tracks were merged, a list of per-track buffers otherwise
(source lines 44 to 48). -/
inductive TracksResult
  | single (buf : List OutputRecord)
  | perTrack (bufs : List (List OutputRecord))
deriving DecidableEq, Repr

/-- The Python `load` entry point (source lines 28 to 53): it forwards the
five boolean options to the native extension, reinterprets every returned
buffer with `TRACK_DTYPE`, takes the first buffer when merging, and returns
the tempo table and the ticks-per-beat division only when `microseconds` is
false. -/
def load (bytes : List Nat) (o : LoadOptions) :
    Except DecodeError (TracksResult × Option (List TempoEntry × Nat)) :=
  match load_midi bytes o.merge_tracks o.microseconds o.notes_only
      o.durations o.remove_note_off with
  | .error e => .error e
  | .ok (tracks, tempos, tpb) =>
    let tr :=
      if o.merge_tracks then TracksResult.single (tracks.headD [])
      else TracksResult.perTrack tracks
    if o.microseconds then .ok (tr, none) else .ok (tr, some (tempos, tpb))

/-- The Python `load` entry point called with only a filename, so every
keyword option takes its declared default (source lines 28 to 35). -/
def loadWithDefaults (bytes : List Nat) :
    Except DecodeError (TracksResult × Option (List TempoEntry × Nat)) :=
  load bytes defaultLoadOptions

/-- The number of track chunks a byte stream declares and carries, when its
header and chunk structure parse. -/
def numTrackChunks (bytes : List Nat) : Option Nat :=
  match parseHeader bytes with
  | .error _ => none
  | .ok (hdr, rest) =>
    match parseChunks hdr.ntracks rest with
    | .error _ => none
    | .ok bodies => some bodies.length

/-- The buffers contained in a `TracksResult`, as a list. -/
def buffersOf : TracksResult → List (List OutputRecord)
  | .single b => [b]
  | .perTrack bs => bs

/-- The nine standard MIDI status nibbles that may appear as output record
type codes (spec section 6). -/
def standardTypeCodes : List Nat :=
  [0x80, 0x90, 0xA0, 0xB0, 0xC0, 0xD0, 0xE0, 0xF0, 0xF7]

/-- A minimal well-formed SMF byte stream: format 0, one track, 96 ticks
per beat, one Note-On followed 16 ticks later by its Note-Off. -/
def exampleBytes : List Nat :=
  [0x4D, 0x54, 0x68, 0x64, 0, 0, 0, 6, 0, 0, 0, 1, 0, 96,
   0x4D, 0x54, 0x72, 0x6B, 0, 0, 0, 8,
   0x00, 0x90, 60, 64, 0x10, 0x80, 60, 0]

/-- A well-formed SMF byte stream whose single track carries a
Program-Change, a Sysex-Begin, a Sysex-End and two running-status Note-On
events. -/
def exampleSysexBytes : List Nat :=
  [0x4D, 0x54, 0x68, 0x64, 0, 0, 0, 6, 0, 1, 0, 1, 0, 96,
   0x4D, 0x54, 0x72, 0x6B, 0, 0, 0, 17,
   0, 0xC2, 5, 0, 0xF0, 1, 0xAA, 0, 0xF7, 0, 0, 0x92, 10, 7, 0, 11, 8]

/-- A byte stream whose header declares an SMPTE time division (high bit of
the division word set). -/
def exampleSmpteBytes : List Nat :=
  [0x4D, 0x54, 0x68, 0x64, 0, 0, 0, 6, 0, 0, 0, 1, 0xE2, 0x50]

/-! ## Theorems -/

/-- C1, counterexample: the columns of the output record dtype are not in
the order dt, duration, program, track, type, channel, key, value stated by
the claim, and the program column does not precede the track column. -/
theorem c1_column_order_counterexample :
    TRACK_DTYPE.map Prod.fst ≠ specClaimedColumnOrder ∧
    ¬ ((TRACK_DTYPE.map Prod.fst).indexOf "program"
        < (TRACK_DTYPE.map Prod.fst).indexOf "track") := by
  decide

/-- C1, amended: the columns of each output record appear in exactly the
order dt, duration, track, program, type, channel, key, value; in
particular the track column precedes the program column. -/
theorem c1_column_order :
    TRACK_DTYPE.map Prod.fst =
      ["dt", "duration", "track", "program", "type", "channel", "key", "value"] ∧
    (TRACK_DTYPE.map Prod.fst).indexOf "track"
      < (TRACK_DTYPE.map Prod.fst).indexOf "program" := by
  decide

/-- C2, counterexample: with duration computation disabled the duration
column is still part of the record layout the caller sees, refuting
"present iff compute_durations". -/
theorem c2_layout_counterexample :
    ("duration" ∈ (load_viewDtype ⟨true, true, true, false, false⟩).map Prod.fst) ∧
    (LoadOptions.durations ⟨true, true, true, false, false⟩ = false) := by
  decide

/-- C2, amended: the output record layout does not vary with the
configuration: for every option combination the buffers are reinterpreted
with the fixed `TRACK_DTYPE`, in which the duration field is always present
as an unsigned 32-bit column and dt is always an unsigned 32-bit column. -/
theorem c2_layout_fixed (o : LoadOptions) :
    load_viewDtype o = TRACK_DTYPE ∧
    ("duration", NumType.u4) ∈ load_viewDtype o ∧
    ("dt", NumType.u4) ∈ load_viewDtype o := by
  refine ⟨rfl, ?_, ?_⟩
  · show ("duration", NumType.u4) ∈ TRACK_DTYPE
    decide
  · show ("dt", NumType.u4) ∈ TRACK_DTYPE
    decide

/-- C3, counterexample: the option list of the `load` entry point does not
match the claimed list; in particular no `default_program` and no
three-valued `time_unit` option exists. -/
theorem c3_options_counterexample :
    loadOptionNamesAndDefaults.map Prod.fst ≠ specClaimedOptionNames ∧
    "default_program" ∉ loadOptionNamesAndDefaults.map Prod.fst ∧
    "time_unit" ∉ loadOptionNamesAndDefaults.map Prod.fst := by
  decide

/-- C3, amended: the `load` entry point accepts exactly the keyword options
merge_tracks, microseconds, notes_only, durations and remove_note_off, each
a plain boolean (the time unit is the two-valued microseconds toggle, and
there is no default_program option). -/
theorem c3_options :
    loadOptionNamesAndDefaults.map Prod.fst =
      ["merge_tracks", "microseconds", "notes_only", "durations",
       "remove_note_off"] ∧
    loadOptionNamesAndDefaults.length = 5 := by
  decide

/-- C9: calling `load` with only a filename is the same call as one with
merge_tracks=true, microseconds=true, notes_only=true, durations=false and
remove_note_off=false: these are the declared defaults. -/
theorem c9_default_option_values (bytes : List Nat) :
    loadWithDefaults bytes = load bytes ⟨true, true, true, false, false⟩ ∧
    defaultLoadOptions.merge_tracks = true ∧
    defaultLoadOptions.microseconds = true ∧
    defaultLoadOptions.notes_only = true ∧
    defaultLoadOptions.durations = false ∧
    defaultLoadOptions.remove_note_off = false :=
  ⟨rfl, rfl, rfl, rfl, rfl, rfl⟩

/-- C10: the module re-exports exactly six event type constants, with the
standard values, and none of them is Program-Change (0xC0), Sysex-Begin
(0xF0) or Sysex-End (0xF7), even though a decode can produce output records
with each of those three type codes. -/
theorem c10_constant_set :
    moduleEventConstants =
      [("NOTE_OFF", 0x80), ("NOTE_ON", 0x90), ("POLY_AFTERTOUCH", 0xA0),
       ("CONTROL", 0xB0), ("CHAN_AFTERTOUCH", 0xD0), ("PITCH_BEND", 0xE0)] ∧
    (∀ p ∈ moduleEventConstants, p.2 ≠ 0xC0 ∧ p.2 ≠ 0xF0 ∧ p.2 ≠ 0xF7) ∧
    (∃ r, load exampleSysexBytes ⟨true, true, false, false, false⟩ = .ok r ∧
      ∃ buf ∈ buffersOf r.1,
        (∃ rec ∈ buf, rec.type = 0xC0) ∧
        (∃ rec ∈ buf, rec.type = 0xF0) ∧
        (∃ rec ∈ buf, rec.type = 0xF7)) := by
  refine ⟨by decide, by decide, ?_⟩
  refine ⟨(TracksResult.single
    [⟨0, 0, 0, 5, 0xC0, 2, 5, 0⟩, ⟨0, 0, 0, 0, 0xF0, 0, 0, 0⟩,
     ⟨0, 0, 0, 0, 0xF7, 0, 0, 0⟩, ⟨0, 0, 0, 5, 0x90, 2, 10, 7⟩,
     ⟨0, 0, 0, 5, 0x90, 2, 11, 8⟩], none), rfl, ?_⟩
  decide

/-- C4: the tempo table and the ticks-per-beat division are returned
together with the track result exactly when time conversion is disabled
(microseconds = false); when time conversion is enabled only the track
result is returned. -/
theorem c4_tempo_return (bytes : List Nat) (o : LoadOptions)
    (r : TracksResult × Option (List TempoEntry × Nat))
    (h : load bytes o = .ok r) :
    (∃ tempos tpb, r.2 = some (tempos, tpb)) ↔ o.microseconds = false := by
  unfold load at h
  cases hm : load_midi bytes o.merge_tracks o.microseconds o.notes_only
      o.durations o.remove_note_off with
  | error e => rw [hm] at h; cases h
  | ok t =>
    obtain ⟨tracks, tempos, tpb⟩ := t
    rw [hm] at h
    by_cases hms : o.microseconds = true
    · simp only [hms, if_pos] at h
      cases h
      simp [hms]
    · have hms2 : o.microseconds = false := by
        cases hmsb : o.microseconds
        · rfl
        · exact absurd hmsb hms
      simp only [hms2, Bool.false_eq_true, if_neg, if_false] at h
      cases h
      simp [hms2]

/-- C4 witness: a concrete decode with time conversion disabled returns the
tempo table and the ticks-per-beat division next to the track buffer. -/
theorem c4_tempo_return_witness :
    (∃ tempos tpb,
      ((TracksResult.single
          [⟨0, 0, 0, 0, 0x90, 0, 60, 64⟩, ⟨16, 0, 0, 0, 0x80, 0, 60, 0⟩],
        some ([⟨0, 500000⟩], 96)) :
          TracksResult × Option (List TempoEntry × Nat)).2 = some (tempos, tpb)) ↔
    (⟨true, false, true, false, false⟩ : LoadOptions).microseconds = false :=
  c4_tempo_return exampleBytes ⟨true, false, true, false, false⟩ _ (by rfl)

/-- C8: decoding is deterministic: two runs of the decoder on the same byte
stream with the same options produce identical results. -/
theorem c8_deterministic (b1 b2 : List Nat) (o1 o2 : LoadOptions)
    (hb : b1 = b2) (ho : o1 = o2) : load b1 o1 = load b2 o2 := by
  subst hb
  subst ho
  rfl

/-- C8 witness: determinism at a concrete byte stream and option set. -/
theorem c8_deterministic_witness :
    load exampleBytes defaultLoadOptions = load exampleBytes defaultLoadOptions :=
  c8_deterministic exampleBytes exampleBytes defaultLoadOptions
    defaultLoadOptions rfl rfl

/-- The per-track decode produces exactly one raw event sequence per track
chunk body. -/
theorem decodeAllTracks_length :
    ∀ (i : Nat) (bodies : List (List Nat)) evss tms,
      decodeAllTracks i bodies = .ok (evss, tms) →
      evss.length = bodies.length := by
  intro i bodies
  induction bodies generalizing i with
  | nil =>
    intro evss tms h
    simp only [decodeAllTracks] at h
    cases h
    rfl
  | cons b rest ih =>
    intro evss tms h
    simp only [decodeAllTracks] at h
    cases hd : decodeTrack i b with
    | error e => rw [hd] at h; cases h
    | ok p =>
      obtain ⟨evs, tms1⟩ := p
      rw [hd] at h
      cases hr : decodeAllTracks (i + 1) rest with
      | error e => rw [hr] at h; cases h
      | ok q =>
        obtain ⟨evss2, tms2⟩ := q
        rw [hr] at h
        cases h
        simp [ih (i + 1) evss2 tms2 hr]

/-- The native entry point returns a single output buffer when merging and
one output buffer per decoded track chunk otherwise. -/
theorem load_midi_track_count (bytes : List Nat)
    (mt ms no du rn : Bool) (tracks : List (List OutputRecord))
    (tempos : List TempoEntry) (tpb : Nat)
    (h : load_midi bytes mt ms no du rn = .ok (tracks, tempos, tpb)) :
    (mt = true → tracks.length = 1) ∧
    (mt = false → numTrackChunks bytes = some tracks.length) := by
  unfold load_midi at h
  cases hh : parseHeader bytes with
  | error e => rw [hh] at h; cases h
  | ok p =>
    obtain ⟨hdr, rest⟩ := p
    rw [hh] at h
    simp only [] at h
    cases hc : parseChunks hdr.ntracks rest with
    | error e => rw [hc] at h; cases h
    | ok bodies =>
      rw [hc] at h
      simp only [] at h
      cases hdk : decodeAllTracks 0 bodies with
      | error e => rw [hdk] at h; cases h
      | ok q =>
        obtain ⟨trackEvs, tempoEvs⟩ := q
        rw [hdk] at h
        simp only [] at h
        have hlen := decodeAllTracks_length 0 bodies trackEvs tempoEvs hdk
        cases mt with
        | true =>
          simp only [if_pos] at h
          cases h
          exact ⟨fun _ => rfl, fun hct => by cases hct⟩
        | false =>
          simp only [Bool.false_eq_true, if_neg, if_false] at h
          cases h
          refine ⟨fun hct => (nomatch hct), fun _ => ?_⟩
          simp only [numTrackChunks, hh, hc, List.length_map, Option.some.injEq]
          split <;> simp [hlen]

/-- C5: with track merging requested the result carries a single output
buffer; without merging it carries one independent buffer per decoded track
chunk. -/
theorem c5_merge_shape (bytes : List Nat) (o : LoadOptions)
    (r : TracksResult × Option (List TempoEntry × Nat))
    (h : load bytes o = .ok r) :
    (o.merge_tracks = true → ∃ buf, r.1 = TracksResult.single buf) ∧
    (o.merge_tracks = false → ∃ bufs, r.1 = TracksResult.perTrack bufs ∧
      numTrackChunks bytes = some bufs.length) := by
  unfold load at h
  cases hm : load_midi bytes o.merge_tracks o.microseconds o.notes_only
      o.durations o.remove_note_off with
  | error e => rw [hm] at h; cases h
  | ok t =>
    obtain ⟨tracks, tempos, tpb⟩ := t
    rw [hm] at h
    simp only [] at h
    have hcount := load_midi_track_count bytes o.merge_tracks o.microseconds
      o.notes_only o.durations o.remove_note_off tracks tempos tpb hm
    cases hmt : o.merge_tracks with
    | true =>
      rw [hmt] at h
      simp only [if_pos] at h
      refine ⟨fun _ => ?_, fun hct => (nomatch hct)⟩
      split at h <;> cases h <;> exact ⟨tracks.headD [], rfl⟩
    | false =>
      rw [hmt] at h
      simp only [Bool.false_eq_true, if_false] at h
      refine ⟨fun hct => (nomatch hct), fun _ => ?_⟩
      have hnum := hcount.2 hmt
      split at h <;> cases h <;> exact ⟨tracks, rfl, hnum⟩

/-- C5 witness: a concrete decode of a one-track file without merging
returns exactly one buffer, matching the number of track chunks. -/
theorem c5_merge_shape_witness :
    ((⟨false, true, true, false, false⟩ : LoadOptions).merge_tracks = true →
      ∃ buf, ((TracksResult.perTrack
          [[⟨0, 0, 0, 0, 0x90, 0, 60, 64⟩, ⟨83333, 0, 0, 0, 0x80, 0, 60, 0⟩]],
        (none : Option (List TempoEntry × Nat))).1 = TracksResult.single buf)) ∧
    ((⟨false, true, true, false, false⟩ : LoadOptions).merge_tracks = false →
      ∃ bufs, ((TracksResult.perTrack
          [[⟨0, 0, 0, 0, 0x90, 0, 60, 64⟩, ⟨83333, 0, 0, 0, 0x80, 0, 60, 0⟩]],
        (none : Option (List TempoEntry × Nat))).1 = TracksResult.perTrack bufs ∧
        numTrackChunks exampleBytes = some bufs.length)) :=
  c5_merge_shape exampleBytes ⟨false, true, true, false, false⟩ _ (by rfl)

/-- A well-formed header prefix whose division word has the high bit set
parses to the `UnsupportedDivision` failure. -/
theorem parseHeader_smpte (f1 f2 n1 n2 d1 d2 : Nat) (rest : List Nat)
    (hf : (f1 % 256) * 256 + f2 % 256 ≤ 2) (hd : 128 ≤ d1 % 256) :
    parseHeader (0x4D :: 0x54 :: 0x68 :: 0x64 :: 0 :: 0 :: 0 :: 6 ::
      f1 :: f2 :: n1 :: n2 :: d1 :: d2 :: rest) =
      .error .UnsupportedDivision := by
  have hfmt : ¬ (2 < (f1 % 256) * 256 + (f2 % 256)) := by omega
  have hdiv : 0x8000 ≤ (d1 % 256) * 256 + (d2 % 256) := by omega
  simp [parseHeader, takeExact, readBE, hfmt, hdiv]

/-- C7: a byte stream whose header declares an SMPTE time division fails
the whole decode with `UnsupportedDivision` for every option combination,
and no output is produced: the call never returns an ok result. -/
theorem c7_smpte_fails (f1 f2 n1 n2 d1 d2 : Nat) (rest : List Nat)
    (o : LoadOptions)
    (hf : (f1 % 256) * 256 + f2 % 256 ≤ 2) (hd : 128 ≤ d1 % 256) :
    load (0x4D :: 0x54 :: 0x68 :: 0x64 :: 0 :: 0 :: 0 :: 6 ::
        f1 :: f2 :: n1 :: n2 :: d1 :: d2 :: rest) o =
      .error .UnsupportedDivision ∧
    ∀ r, load (0x4D :: 0x54 :: 0x68 :: 0x64 :: 0 :: 0 :: 0 :: 6 ::
        f1 :: f2 :: n1 :: n2 :: d1 :: d2 :: rest) o ≠ .ok r := by
  have hp := parseHeader_smpte f1 f2 n1 n2 d1 d2 rest hf hd
  have h1 : load (0x4D :: 0x54 :: 0x68 :: 0x64 :: 0 :: 0 :: 0 :: 6 ::
      f1 :: f2 :: n1 :: n2 :: d1 :: d2 :: rest) o =
      .error .UnsupportedDivision := by
    simp [load, load_midi, hp]
  refine ⟨h1, fun r hr => ?_⟩
  rw [h1] at hr
  cases hr

/-- C7 witness: a concrete SMPTE header fails with `UnsupportedDivision`
under the default options. -/
theorem c7_smpte_fails_witness :
    load exampleSmpteBytes defaultLoadOptions = .error .UnsupportedDivision ∧
    ∀ r, load exampleSmpteBytes defaultLoadOptions ≠ .ok r :=
  c7_smpte_fails 0 0 0 1 0xE2 0x50 [] defaultLoadOptions (by decide) (by decide)

/-- The high nibble of a channel-voice status byte is one of the seven
channel-voice type codes. -/
theorem hi_nibble_mem (s : Nat) (h1 : 128 ≤ s) (h2 : s < 240) :
    s / 16 * 16 ∈ standardTypeCodes := by
  have hq : s / 16 = 8 ∨ s / 16 = 9 ∨ s / 16 = 10 ∨ s / 16 = 11 ∨
      s / 16 = 12 ∨ s / 16 = 13 ∨ s / 16 = 14 := by omega
  rcases hq with h | h | h | h | h | h | h <;> rw [h] <;> decide

/-- Every event surfaced by a single decode step carries one of the nine
standard type codes. -/
theorem decodeOneEvent_type_mem (trk tick0 : Nat) (running : Option Nat)
    (programs : Nat → Nat) (bs : List Nat) (s : StepOut)
    (h : decodeOneEvent trk tick0 running programs bs = .ok s) :
    ∀ e ∈ s.ev.toList, e.type ∈ standardTypeCodes := by
  intro e he
  simp only [decodeOneEvent] at h
  split at h
  · cases h
  · split at h
    · cases h
    · split at h
      · cases h
      · rename_i status bs3 heq
        split at h
        · -- meta event
          split at h
          · cases h
          · split at h
            · cases h
            · split at h
              · cases h
              · cases h
                simp at he
        · split at h
          · -- sysex event
            rename_i hsx
            split at h
            · cases h
            · split at h
              · cases h
              · cases h
                simp at he
                subst he
                rcases hsx with h1 | h1 <;> subst h1 <;>
                  simp [standardTypeCodes]
          · split at h
            · -- channel voice
              rename_i hcv
              split at h
              · -- one data byte
                split at h
                · cases h
                · cases h
                  simp at he
                  subst he
                  exact hi_nibble_mem status hcv.1 hcv.2
              · -- two data bytes
                split at h
                · cases h
                · split at h
                  · cases h
                  · cases h
                    simp at he
                    subst he
                    exact hi_nibble_mem status hcv.1 hcv.2
            · cases h

/-- Every event produced by the track event loop carries one of the nine
standard type codes. -/
theorem decodeEventsAux_type_mem (trk : Nat) :
    ∀ (fuel tick : Nat) (running : Option Nat) (programs : Nat → Nat)
      (bs : List Nat) evs tms,
      decodeEventsAux trk fuel tick running programs bs = .ok (evs, tms) →
      ∀ e ∈ evs, e.type ∈ standardTypeCodes := by
  intro fuel
  induction fuel with
  | zero =>
    intro tick running programs bs evs tms h
    simp [decodeEventsAux] at h
  | succ fuel ih =>
    intro tick running programs bs evs tms h e he
    cases bs with
    | nil =>
      simp only [decodeEventsAux] at h
      cases h
      cases he
    | cons b0 bs1 =>
      simp only [decodeEventsAux] at h
      cases hs : decodeOneEvent trk tick running programs (b0 :: bs1) with
      | error e2 => rw [hs] at h; cases h
      | ok st =>
        rw [hs] at h
        simp only [] at h
        cases hr : decodeEventsAux trk fuel st.tick st.running st.programs st.rest with
        | error e2 => rw [hr] at h; cases h
        | ok q =>
          obtain ⟨evs2, tms2⟩ := q
          rw [hr] at h
          simp only [] at h
          cases h
          rcases List.mem_append.mp he with h3 | h3
          · exact decodeOneEvent_type_mem trk tick running programs
              (b0 :: bs1) st hs e h3
          · exact ih st.tick st.running st.programs st.rest evs2 tms2 hr e h3

/-- Every event of every decoded track carries one of the nine standard
type codes. -/
theorem decodeAllTracks_type_mem :
    ∀ (i : Nat) (bodies : List (List Nat)) evss tms,
      decodeAllTracks i bodies = .ok (evss, tms) →
      ∀ evs ∈ evss, ∀ e ∈ evs, e.type ∈ standardTypeCodes := by
  intro i bodies
  induction bodies generalizing i with
  | nil =>
    intro evss tms h
    simp only [decodeAllTracks] at h
    cases h
    intro evs hm
    cases hm
  | cons b rest ih =>
    intro evss tms h
    simp only [decodeAllTracks] at h
    cases hd : decodeTrack i b with
    | error e => rw [hd] at h; cases h
    | ok p =>
      obtain ⟨evs1, tms1⟩ := p
      rw [hd] at h
      simp only [] at h
      cases hr : decodeAllTracks (i + 1) rest with
      | error e => rw [hr] at h; cases h
      | ok q =>
        obtain ⟨evss2, tms2⟩ := q
        rw [hr] at h
        simp only [] at h
        cases h
        intro evs hm e he
        rcases List.mem_cons.mp hm with h3 | h3
        · subst h3
          exact decodeEventsAux_type_mem i (b.length + 1) 0 none
            (fun _ => 0) b evs tms1 hd e he
        · exact ih (i + 1) evss2 tms2 hr evs h3 e he

/-- The second component of an entry of `enumFrom` is an element of the
underlying list. -/
theorem snd_mem_of_enumFrom {α : Type} :
    ∀ (l : List α) (n : Nat) (p : Nat × α), p ∈ l.enumFrom n → p.2 ∈ l := by
  intro l
  induction l with
  | nil => intro n p h; cases h
  | cons a t ih =>
    intro n p h
    cases h with
    | head => exact List.mem_cons_self a t
    | tail _ h2 => exact List.mem_cons_of_mem a (ih (n + 1) p h2)

/-- Every event returned by the duration resolver comes from the input
sequence. -/
theorem resolveDurations_mem (ro : Bool) (evs : List RawEvent)
    (p : RawEvent × Nat) (hp : p ∈ resolveDurations ro evs) : p.1 ∈ evs := by
  unfold resolveDurations at hp
  obtain ⟨a, ha, hfa⟩ := List.mem_filterMap.mp hp
  have ha2 : a.2 ∈ evs := snd_mem_of_enumFrom evs 0 a ha
  split at hfa
  · split at hfa
    · cases hfa
    · split at hfa
      · cases hfa
      · cases hfa; exact ha2
  · split at hfa
    · cases hfa; exact ha2
    · cases hfa; exact ha2

/-- Every event kept by the close-event filter comes from the input
sequence. -/
theorem stripCloses_mem (ro : Bool) (evs : List RawEvent)
    (p : RawEvent × Nat) (hp : p ∈ stripCloses ro evs) : p.1 ∈ evs := by
  unfold stripCloses at hp
  obtain ⟨a, ha, hfa⟩ := List.mem_filterMap.mp hp
  split at hfa
  · cases hfa
  · cases hfa; exact ha

/-- Membership in a stable insertion comes from the inserted element or the
base list. -/
theorem insertByTick_mem (x p : RawEvent × Nat) :
    ∀ (l : List (RawEvent × Nat)), p ∈ insertByTick x l → p = x ∨ p ∈ l := by
  intro l
  induction l with
  | nil =>
    intro h
    simp only [insertByTick] at h
    rcases List.mem_singleton.mp h with h2
    exact Or.inl h2
  | cons y ys ih =>
    intro h
    simp only [insertByTick] at h
    split at h
    · rcases List.mem_cons.mp h with h2 | h2
      · exact Or.inr (List.mem_cons.mpr (Or.inl h2))
      · rcases ih h2 with h3 | h3
        · exact Or.inl h3
        · exact Or.inr (List.mem_cons.mpr (Or.inr h3))
    · rcases List.mem_cons.mp h with h2 | h2
      · exact Or.inl h2
      · exact Or.inr h2

/-- Membership in the insertion fold comes from the accumulator or the
folded list. -/
theorem foldl_insertByTick_mem (p : RawEvent × Nat) :
    ∀ (l acc : List (RawEvent × Nat)),
      p ∈ l.foldl (fun a x => insertByTick x a) acc → p ∈ acc ∨ p ∈ l := by
  intro l
  induction l with
  | nil => intro acc h; exact Or.inl h
  | cons x xs ih =>
    intro acc h
    rcases ih (insertByTick x acc) h with h2 | h2
    · rcases insertByTick_mem x p acc h2 with h3 | h3
      · exact Or.inr (List.mem_cons.mpr (Or.inl h3))
      · exact Or.inl h3
    · exact Or.inr (List.mem_cons.mpr (Or.inr h2))

/-- Every event of the merged stream comes from one of the per-track
streams. -/
theorem mergeStreams_mem (tracks : List (List (RawEvent × Nat)))
    (p : RawEvent × Nat) (hp : p ∈ mergeStreams tracks) :
    ∃ t ∈ tracks, p ∈ t := by
  unfold mergeStreams at hp
  rcases foldl_insertByTick_mem p tracks.flatten [] hp with h2 | h2
  · cases h2
  · exact List.mem_flatten.mp h2

/-- Every output record packs the type code of an input event. -/
theorem computeDts_type_mem :
    ∀ (l : List (RawEvent × Nat)) (prev : Nat) (rec : OutputRecord),
      rec ∈ computeDts prev l → ∃ p ∈ l, rec.type = p.1.type := by
  intro l
  induction l with
  | nil => intro prev rec h; cases h
  | cons p rest ih =>
    intro prev rec h
    obtain ⟨e, d⟩ := p
    simp only [computeDts] at h
    rcases List.mem_cons.mp h with h2 | h2
    · subst h2
      exact ⟨(e, d), List.mem_cons_self _ _, rfl⟩
    · obtain ⟨q, hq, hq2⟩ := ih e.tick rec h2
      exact ⟨q, List.mem_cons_of_mem _ hq, hq2⟩

/-- The conversion, duration and filter stages preserve the type codes of
the decoded events. -/
theorem pipeline_type_mem (no du rn ms : Bool) (tpb : Nat)
    (tempos : List TempoEntry) (trackEvs : List (List RawEvent))
    (hraw : ∀ t ∈ trackEvs, ∀ e ∈ t, e.type ∈ standardTypeCodes) :
    ∀ t ∈ ((if ms = true then trackEvs.map (convertTimes tpb tempos)
          else trackEvs).map
        (fun evs => if du = true then resolveDurations rn evs
          else stripCloses rn evs)).map (notesOnlyFilter no),
      ∀ p ∈ t, p.1.type ∈ standardTypeCodes := by
  intro t ht p hp
  obtain ⟨t1, ht1, rfl⟩ := List.mem_map.mp ht
  have hp1 : p ∈ t1 := by
    simp only [notesOnlyFilter] at hp
    exact (List.mem_filter.mp hp).1
  obtain ⟨t2, ht2, rfl⟩ := List.mem_map.mp ht1
  simp only [] at hp1
  have hp2 : p.1 ∈ t2 := by
    by_cases hdu : du = true
    · rw [if_pos hdu] at hp1
      exact resolveDurations_mem rn t2 p hp1
    · rw [if_neg hdu] at hp1
      exact stripCloses_mem rn t2 p hp1
  split at ht2
  · obtain ⟨t3, ht3, rfl⟩ := List.mem_map.mp ht2
    simp only [convertTimes] at hp2
    obtain ⟨e0, he0, heq⟩ := List.mem_map.mp hp2
    rw [← heq]
    exact hraw t3 ht3 e0 he0
  · exact hraw t2 ht2 p.1 hp2

/-- Every record of every buffer produced by the native entry point carries
one of the nine standard type codes. -/
theorem load_midi_type_mem (bytes : List Nat) (mt ms no du rn : Bool)
    (tracks : List (List OutputRecord)) (tempos : List TempoEntry) (tpb : Nat)
    (h : load_midi bytes mt ms no du rn = .ok (tracks, tempos, tpb)) :
    ∀ buf ∈ tracks, ∀ rec ∈ buf, rec.type ∈ standardTypeCodes := by
  unfold load_midi at h
  cases hh : parseHeader bytes with
  | error e => rw [hh] at h; cases h
  | ok p =>
    obtain ⟨hdr, rest⟩ := p
    rw [hh] at h
    simp only [] at h
    cases hc : parseChunks hdr.ntracks rest with
    | error e => rw [hc] at h; cases h
    | ok bodies =>
      rw [hc] at h
      simp only [] at h
      cases hdk : decodeAllTracks 0 bodies with
      | error e => rw [hdk] at h; cases h
      | ok q =>
        obtain ⟨trackEvs, tempoEvs⟩ := q
        rw [hdk] at h
        simp only [] at h
        have hraw := decodeAllTracks_type_mem 0 bodies trackEvs tempoEvs hdk
        have hpipe := pipeline_type_mem no du rn ms hdr.division
          (buildTempoMap tempoEvs) trackEvs hraw
        cases h
        intro buf hbuf rec hrec
        split at hbuf
        · rcases List.mem_singleton.mp hbuf with rfl
          obtain ⟨p, hp, htype⟩ := computeDts_type_mem _ 0 rec hrec
          obtain ⟨t, ht, hpt⟩ := mergeStreams_mem _ p hp
          rw [htype]
          exact hpipe t ht p hpt
        · obtain ⟨t, ht, rfl⟩ := List.mem_map.mp hbuf
          obtain ⟨p, hp, htype⟩ := computeDts_type_mem t 0 rec hrec
          rw [htype]
          exact hpipe t ht p hp

/-- C6: every module event type constant has its standard MIDI status
nibble value, and every record of every output buffer of a decode carries
one of the nine standard type codes 0x80, 0x90, 0xA0, 0xB0, 0xC0, 0xD0,
0xE0, 0xF0, 0xF7. -/
theorem c6_standard_type_codes (bytes : List Nat) (o : LoadOptions)
    (r : TracksResult × Option (List TempoEntry × Nat))
    (h : load bytes o = .ok r) :
    (NOTE_OFF = 0x80 ∧ NOTE_ON = 0x90 ∧ POLY_AFTERTOUCH = 0xA0 ∧
      CONTROL = 0xB0 ∧ CHAN_AFTERTOUCH = 0xD0 ∧ PITCH_BEND = 0xE0) ∧
    ∀ buf ∈ buffersOf r.1, ∀ rec ∈ buf, rec.type ∈ standardTypeCodes := by
  refine ⟨⟨rfl, rfl, rfl, rfl, rfl, rfl⟩, ?_⟩
  unfold load at h
  cases hm : load_midi bytes o.merge_tracks o.microseconds o.notes_only
      o.durations o.remove_note_off with
  | error e => rw [hm] at h; cases h
  | ok t =>
    obtain ⟨tracks, tempos, tpb⟩ := t
    rw [hm] at h
    simp only [] at h
    have hmem := load_midi_type_mem bytes o.merge_tracks o.microseconds
      o.notes_only o.durations o.remove_note_off tracks tempos tpb hm
    have hhead : ∀ rec2 ∈ tracks.headD [], rec2.type ∈ standardTypeCodes := by
      cases tracks with
      | nil => intro rec2 h2; cases h2
      | cons t0 ts => exact hmem t0 (List.mem_cons_self t0 ts)
    split at h <;> cases h <;>
    · split
      · intro buf hbuf rec hrec
        rcases List.mem_singleton.mp hbuf with rfl
        exact hhead rec hrec
      · exact hmem

/-- C6 witness: the type codes of a concrete decode carrying
Program-Change, sysex and Note-On records are all standard nibbles. -/
theorem c6_standard_type_codes_witness :
    ((NOTE_OFF = 0x80 ∧ NOTE_ON = 0x90 ∧ POLY_AFTERTOUCH = 0xA0 ∧
      CONTROL = 0xB0 ∧ CHAN_AFTERTOUCH = 0xD0 ∧ PITCH_BEND = 0xE0) ∧
    ∀ buf ∈ buffersOf ((TracksResult.single
        [⟨0, 0, 0, 5, 0xC0, 2, 5, 0⟩, ⟨0, 0, 0, 0, 0xF0, 0, 0, 0⟩,
         ⟨0, 0, 0, 0, 0xF7, 0, 0, 0⟩, ⟨0, 0, 0, 5, 0x90, 2, 10, 7⟩,
         ⟨0, 0, 0, 5, 0x90, 2, 11, 8⟩],
      (none : Option (List TempoEntry × Nat))) :
        TracksResult × Option (List TempoEntry × Nat)).1,
      ∀ rec ∈ buf, rec.type ∈ standardTypeCodes) :=
  c6_standard_type_codes exampleSysexBytes
    ⟨true, true, false, false, false⟩ _ (by rfl)

end tensormidi
